import Mathlib

/-!
Verification of the scene-normalization routine shared by the three scripts
in src/cello (falling.py lines 147 to 184, repeated in follow.py and
pulling.py).  Coordinates are modelled as exact rationals.  An object carries
the Blender transform the scripts manipulate: a per-axis scale vector, a
location vector, the read-only local bounding corners, and a flag recording
whether it was imported into the reference group (ecs_objects) at import
time.  The scripts apply all transforms at import, so rotation is the
identity and matrix_world applied to a local vertex is componentwise
scale times vertex plus location.
-/

namespace Cello

/-- A 3D vector with rational components, modelling mathutils.Vector. -/
structure Vec3 where
  x : ℚ
  y : ℚ
  z : ℚ
deriving DecidableEq, Repr

/-- A scene object as the normalization block sees it: mutable scale and
location, read-only local bounding corners (bound_box), and fixed
reference-group membership assigned at import. -/
structure Obj where
  scale : Vec3
  location : Vec3
  bound_box : List Vec3
  ref : Bool
deriving DecidableEq, Repr

/-- Binary minimum on rationals, written with an explicit test so that the
kernel can evaluate it; this is the Python builtin min on two floats. -/
def qmin (a b : ℚ) : ℚ := if a ≤ b then a else b

/-- Binary maximum on rationals, the Python builtin max on two floats. -/
def qmax (a b : ℚ) : ℚ := if a ≤ b then b else a

/-- matrix_world applied to a local vertex: with identity rotation the world
position is componentwise scale times vertex plus location. -/
def worldOf (o : Obj) (v : Vec3) : Vec3 :=
  Vec3.mk (o.scale.x * v.x + o.location.x) (o.scale.y * v.y + o.location.y)
    (o.scale.z * v.z + o.location.z)

/-- All world-space bounding corners of a list of objects, in order: the
double loop over obj in objs and vertex in obj.bound_box. -/
def worldCorners : List Obj → List Vec3
  | [] => []
  | o :: rest => (o.bound_box.map (worldOf o)) ++ worldCorners rest

/-- Running minimum of a list.  The script initializes the accumulator to
plus infinity and folds min over every corner coordinate; over a nonempty
list this equals folding from the first element.  The empty case (0) is
never reached under the nonemptiness hypotheses of the theorems. -/
def minOf : List ℚ → ℚ
  | [] => 0
  | a :: rest => rest.foldl qmin a

/-- Running maximum, mirroring minOf with minus infinity as the script
initializer. -/
def maxOf : List ℚ → ℚ
  | [] => 0
  | a :: rest => rest.foldl qmax a

/-- The x coordinates of the world corners of a group. -/
def xsOf (objs : List Obj) : List ℚ := (worldCorners objs).map Vec3.x

/-- The y coordinates of the world corners of a group. -/
def ysOf (objs : List Obj) : List ℚ := (worldCorners objs).map Vec3.y

/-- The z coordinates of the world corners of a group. -/
def zsOf (objs : List Obj) : List ℚ := (worldCorners objs).map Vec3.z

/-- ecs_min_x of the script. -/
def ecsMinX (objs : List Obj) : ℚ := minOf (xsOf objs)

/-- ecs_max_x of the script. -/
def ecsMaxX (objs : List Obj) : ℚ := maxOf (xsOf objs)

/-- ecs_min_y of the script. -/
def ecsMinY (objs : List Obj) : ℚ := minOf (ysOf objs)

/-- ecs_max_y of the script. -/
def ecsMaxY (objs : List Obj) : ℚ := maxOf (ysOf objs)

/-- ecs_min_z of the script. -/
def ecsMinZ (objs : List Obj) : ℚ := minOf (zsOf objs)

/-- ecs_max_z of the script. -/
def ecsMaxZ (objs : List Obj) : ℚ := maxOf (zsOf objs)

/-- ecs_size_x = ecs_max_x - ecs_min_x. -/
def ecsSizeX (objs : List Obj) : ℚ := ecsMaxX objs - ecsMinX objs

/-- ecs_size_y = ecs_max_y - ecs_min_y. -/
def ecsSizeY (objs : List Obj) : ℚ := ecsMaxY objs - ecsMinY objs

/-- ecs_size_z = ecs_max_z - ecs_min_z. -/
def ecsSizeZ (objs : List Obj) : ℚ := ecsMaxZ objs - ecsMinZ objs

/-- min_dimension = min(ecs_size_x, ecs_size_y, ecs_size_z). -/
def minDimension (objs : List Obj) : ℚ :=
  qmin (ecsSizeX objs) (qmin (ecsSizeY objs) (ecsSizeZ objs))

/-- scaling_factor: 1.0, replaced by 1.0 / min_dimension when
min_dimension is strictly positive. -/
def scalingFactor (objs : List Obj) : ℚ :=
  if 0 < minDimension objs then 1 / minDimension objs else 1

/-- ecs_center_x = (ecs_min_x + ecs_max_x) / 2 * scaling_factor. -/
def ecsCenterX (objs : List Obj) : ℚ :=
  (ecsMinX objs + ecsMaxX objs) / 2 * scalingFactor objs

/-- ecs_center_y of the script. -/
def ecsCenterY (objs : List Obj) : ℚ :=
  (ecsMinY objs + ecsMaxY objs) / 2 * scalingFactor objs

/-- ecs_center_z of the script. -/
def ecsCenterZ (objs : List Obj) : ℚ :=
  (ecsMinZ objs + ecsMaxZ objs) / 2 * scalingFactor objs

/-- The per-object mutation the two loops perform: obj.scale is multiplied
componentwise by the scalar factor, then the center offset is subtracted
from obj.location.  The center offset is computed from the saved pre-scale
extents, so fusing the two loops into one map is exact. -/
def applyTransform (k : ℚ) (c : Vec3) (o : Obj) : Obj :=
  { o with
    scale := Vec3.mk (o.scale.x * k) (o.scale.y * k) (o.scale.z * k)
    location := Vec3.mk (o.location.x - c.x) (o.location.y - c.y)
      (o.location.z - c.z) }

/-- The reference group: the sublist of objects imported as ECS objects. -/
def refGroup (all : List Obj) : List Obj := all.filter (fun o => o.ref)

/-- The result of the normalization block: the applied scale factor, the
subtracted center offset, and the mutated object list. -/
structure NormalizationResult where
  scaleFactor : ℚ
  centerOffset : Vec3
  objects : List Obj
deriving DecidableEq, Repr

/-- The normalization block (falling.py lines 147 to 184): guarded by
if ecs_objects, it computes the reference bounding extent, the scaling
factor and the center, scales every object in all_objects and subtracts
the center from every location.  When the reference group is empty the
block does not run, which the spec describes as the identity result. -/
def normalize (all : List Obj) : NormalizationResult :=
  if refGroup all = [] then ⟨1, Vec3.mk 0 0 0, all⟩
  else
    ⟨scalingFactor (refGroup all),
     Vec3.mk (ecsCenterX (refGroup all)) (ecsCenterY (refGroup all))
       (ecsCenterZ (refGroup all)),
     all.map (applyTransform (scalingFactor (refGroup all))
       (Vec3.mk (ecsCenterX (refGroup all)) (ecsCenterY (refGroup all))
         (ecsCenterZ (refGroup all))))⟩

/-- The world bounding-box center of a group on the x axis, used to state
the centering claims about the recomputed box. -/
def bboxCenterX (objs : List Obj) : ℚ := (ecsMinX objs + ecsMaxX objs) / 2

/-- The world bounding-box center of a group on the y axis. -/
def bboxCenterY (objs : List Obj) : ℚ := (ecsMinY objs + ecsMaxY objs) / 2

/-- The world bounding-box center of a group on the z axis. -/
def bboxCenterZ (objs : List Obj) : ℚ := (ecsMinZ objs + ecsMaxZ objs) / 2

/-- Default object for indexed access in theorem statements. -/
def defaultObj : Obj := ⟨⟨1, 1, 1⟩, ⟨0, 0, 0⟩, [], false⟩

/-- The eight corners of an axis-aligned box, as Blender bound_box lists
them for an axis-aligned mesh. -/
def boxCorners (x0 x1 y0 y1 z0 z1 : ℚ) : List Vec3 :=
  [⟨x0, y0, z0⟩, ⟨x0, y0, z1⟩, ⟨x0, y1, z1⟩, ⟨x0, y1, z0⟩,
   ⟨x1, y0, z0⟩, ⟨x1, y0, z1⟩, ⟨x1, y1, z1⟩, ⟨x1, y1, z0⟩]

/-- Componentwise affine map on vectors, the shape a uniform scale followed
by a constant shift gives each world corner. -/
def affine3 (k : ℚ) (d : Vec3) (w : Vec3) : Vec3 :=
  Vec3.mk (k * w.x + d.x) (k * w.y + d.y) (k * w.z + d.z)

lemma qmin_eq_min (a b : ℚ) : qmin a b = min a b := by
  rw [qmin, min_def]

lemma qmax_eq_max (a b : ℚ) : qmax a b = max a b := by
  rw [qmax, max_def]

lemma qmin_affine (k d a b : ℚ) (hk : 0 ≤ k) :
    qmin (k * a + d) (k * b + d) = k * qmin a b + d := by
  rw [qmin_eq_min, qmin_eq_min]
  rcases le_total a b with h | h
  · rw [min_eq_left h, min_eq_left (add_le_add_right (mul_le_mul_of_nonneg_left h hk) d)]
  · rw [min_eq_right h, min_eq_right (add_le_add_right (mul_le_mul_of_nonneg_left h hk) d)]

lemma qmax_affine (k d a b : ℚ) (hk : 0 ≤ k) :
    qmax (k * a + d) (k * b + d) = k * qmax a b + d := by
  rw [qmax_eq_max, qmax_eq_max]
  rcases le_total a b with h | h
  · rw [max_eq_right h, max_eq_right (add_le_add_right (mul_le_mul_of_nonneg_left h hk) d)]
  · rw [max_eq_left h, max_eq_left (add_le_add_right (mul_le_mul_of_nonneg_left h hk) d)]

lemma qmin_mul_left (k a b : ℚ) (hk : 0 ≤ k) : qmin (k * a) (k * b) = k * qmin a b := by
  have h := qmin_affine k 0 a b hk
  simpa using h

lemma foldl_qmin_affine (k d : ℚ) (hk : 0 ≤ k) :
    ∀ (l : List ℚ) (a : ℚ),
      List.foldl qmin (k * a + d) (l.map fun t => k * t + d) =
        k * List.foldl qmin a l + d := by
  intro l
  induction l with
  | nil => intro a; simp
  | cons b r ih =>
      intro a
      simp only [List.map_cons, List.foldl_cons]
      rw [qmin_affine k d a b hk, ih (qmin a b)]

lemma foldl_qmax_affine (k d : ℚ) (hk : 0 ≤ k) :
    ∀ (l : List ℚ) (a : ℚ),
      List.foldl qmax (k * a + d) (l.map fun t => k * t + d) =
        k * List.foldl qmax a l + d := by
  intro l
  induction l with
  | nil => intro a; simp
  | cons b r ih =>
      intro a
      simp only [List.map_cons, List.foldl_cons]
      rw [qmax_affine k d a b hk, ih (qmax a b)]

lemma minOf_map_affine (k d : ℚ) (hk : 0 ≤ k) (l : List ℚ) (hl : l ≠ []) :
    minOf (l.map fun t => k * t + d) = k * minOf l + d := by
  cases l with
  | nil => exact absurd rfl hl
  | cons a r => simpa [minOf] using foldl_qmin_affine k d hk r a

lemma maxOf_map_affine (k d : ℚ) (hk : 0 ≤ k) (l : List ℚ) (hl : l ≠ []) :
    maxOf (l.map fun t => k * t + d) = k * maxOf l + d := by
  cases l with
  | nil => exact absurd rfl hl
  | cons a r => simpa [maxOf] using foldl_qmax_affine k d hk r a

lemma worldOf_applyTransform (k : ℚ) (c t : Vec3) (o : Obj) (h : o.location = t) :
    worldOf (applyTransform k c o) = fun v =>
      affine3 k (Vec3.mk ((1 - k) * t.x - c.x) ((1 - k) * t.y - c.y)
        ((1 - k) * t.z - c.z)) (worldOf o v) := by
  subst h
  funext v
  simp only [worldOf, applyTransform, affine3, Vec3.mk.injEq]
  refine ⟨by ring, by ring, by ring⟩

lemma worldCorners_map_applyTransform (k : ℚ) (c t : Vec3) :
    ∀ objs : List Obj, (∀ o ∈ objs, o.location = t) →
      worldCorners (objs.map (applyTransform k c)) =
        (worldCorners objs).map (affine3 k (Vec3.mk ((1 - k) * t.x - c.x)
          ((1 - k) * t.y - c.y) ((1 - k) * t.z - c.z))) := by
  intro objs
  induction objs with
  | nil => intro _; rfl
  | cons o r ih =>
      intro h
      have ho : o.location = t := h o (by simp)
      have hr := ih fun o' ho' => h o' (by simp [ho'])
      simp only [List.map_cons, worldCorners, List.map_append, hr]
      congr 1
      have hbb : (applyTransform k c o).bound_box = o.bound_box := rfl
      rw [hbb, worldOf_applyTransform k c t o ho, List.map_map]
      rfl

lemma xsOf_map_applyTransform (k : ℚ) (c t : Vec3) (objs : List Obj)
    (h : ∀ o ∈ objs, o.location = t) :
    xsOf (objs.map (applyTransform k c)) =
      (xsOf objs).map fun a => k * a + ((1 - k) * t.x - c.x) := by
  rw [xsOf, worldCorners_map_applyTransform k c t objs h, List.map_map, xsOf,
    List.map_map]
  rfl

lemma ysOf_map_applyTransform (k : ℚ) (c t : Vec3) (objs : List Obj)
    (h : ∀ o ∈ objs, o.location = t) :
    ysOf (objs.map (applyTransform k c)) =
      (ysOf objs).map fun a => k * a + ((1 - k) * t.y - c.y) := by
  rw [ysOf, worldCorners_map_applyTransform k c t objs h, List.map_map, ysOf,
    List.map_map]
  rfl

lemma zsOf_map_applyTransform (k : ℚ) (c t : Vec3) (objs : List Obj)
    (h : ∀ o ∈ objs, o.location = t) :
    zsOf (objs.map (applyTransform k c)) =
      (zsOf objs).map fun a => k * a + ((1 - k) * t.z - c.z) := by
  rw [zsOf, worldCorners_map_applyTransform k c t objs h, List.map_map, zsOf,
    List.map_map]
  rfl

lemma refGroup_map_applyTransform (k : ℚ) (c : Vec3) (all : List Obj) :
    refGroup (all.map (applyTransform k c)) = (refGroup all).map (applyTransform k c) := by
  induction all with
  | nil => rfl
  | cons o r ih =>
      simp only [refGroup, List.map_cons, List.filter_cons] at *
      have : (applyTransform k c o).ref = o.ref := rfl
      rw [this]
      cases o.ref with
      | true => simp [ih]
      | false => simp [ih]

lemma normalize_of_ne (all : List Obj) (h : ¬ refGroup all = []) :
    normalize all =
      ⟨scalingFactor (refGroup all),
       Vec3.mk (ecsCenterX (refGroup all)) (ecsCenterY (refGroup all))
         (ecsCenterZ (refGroup all)),
       all.map (applyTransform (scalingFactor (refGroup all))
         (Vec3.mk (ecsCenterX (refGroup all)) (ecsCenterY (refGroup all))
           (ecsCenterZ (refGroup all))))⟩ := by
  rw [normalize, if_neg h]

lemma scalingFactor_nonneg (objs : List Obj) : 0 ≤ scalingFactor objs := by
  rw [scalingFactor]
  split
  · positivity
  · norm_num

lemma scalingFactor_pos (objs : List Obj) : 0 < scalingFactor objs := by
  rw [scalingFactor]
  split
  · rename_i h
    exact one_div_pos.mpr h
  · norm_num

lemma worldCorners_ne_of_size_pos (objs : List Obj) (h : 0 < ecsSizeX objs) :
    worldCorners objs ≠ [] := by
  intro hc
  rw [ecsSizeX, ecsMaxX, ecsMinX, xsOf, hc] at h
  simp [minOf, maxOf] at h

lemma xsOf_ne_of_corners_ne (objs : List Obj) (h : worldCorners objs ≠ []) :
    xsOf objs ≠ [] := by
  rw [xsOf]
  intro hx
  exact h (List.map_eq_nil_iff.mp hx)

lemma ysOf_ne_of_corners_ne (objs : List Obj) (h : worldCorners objs ≠ []) :
    ysOf objs ≠ [] := by
  rw [ysOf]
  intro hx
  exact h (List.map_eq_nil_iff.mp hx)

lemma zsOf_ne_of_corners_ne (objs : List Obj) (h : worldCorners objs ≠ []) :
    zsOf objs ≠ [] := by
  rw [zsOf]
  intro hx
  exact h (List.map_eq_nil_iff.mp hx)

lemma refGroup_ne_of_corners_ne (all : List Obj)
    (h : worldCorners (refGroup all) ≠ []) : refGroup all ≠ [] := by
  intro hg
  rw [hg] at h
  exact h rfl

lemma normalize_objects_of_empty (all : List Obj) (h : refGroup all = []) :
    (normalize all).objects = all := by
  rw [normalize, if_pos h]

lemma normalize_scaleFactor_of_empty (all : List Obj) (h : refGroup all = []) :
    (normalize all).scaleFactor = 1 := by
  rw [normalize, if_pos h]

lemma normalize_objects_of_ne (all : List Obj) (h : ¬ refGroup all = []) :
    (normalize all).objects =
      all.map (applyTransform (scalingFactor (refGroup all))
        (Vec3.mk (ecsCenterX (refGroup all)) (ecsCenterY (refGroup all))
          (ecsCenterZ (refGroup all)))) := by
  rw [normalize, if_neg h]

lemma normalize_scaleFactor_of_ne (all : List Obj) (h : ¬ refGroup all = []) :
    (normalize all).scaleFactor = scalingFactor (refGroup all) := by
  rw [normalize, if_neg h]

lemma normalize_centerOffset_of_ne (all : List Obj) (h : ¬ refGroup all = []) :
    (normalize all).centerOffset =
      Vec3.mk (ecsCenterX (refGroup all)) (ecsCenterY (refGroup all))
        (ecsCenterZ (refGroup all)) := by
  rw [normalize, if_neg h]

lemma getD_map_pres (f : Obj → Obj) (d : Obj) (P : Obj → Prop)
    (hf : ∀ o, P o → P (f o)) :
    ∀ (l : List Obj) (i : ℕ), P (l.getD i d) → P ((l.map f).getD i d) := by
  intro l
  induction l with
  | nil => intro i h; simpa using h
  | cons a r ih =>
      intro i
      cases i with
      | zero => intro h; simpa using hf a (by simpa using h)
      | succ n => intro h; simpa using ih n (by simpa using h)

lemma getD_map_lt (f : Obj → Obj) (d : Obj) :
    ∀ (l : List Obj) (i : ℕ), i < l.length → (l.map f).getD i d = f (l.getD i d) := by
  intro l
  induction l with
  | nil => intro i h; simp at h
  | cons a r ih =>
      intro i h
      cases i with
      | zero => simp
      | succ n =>
          simp only [List.map_cons, List.getD_cons_succ]
          exact ih n (by simpa using h)

/-- Reference object whose local corners form a 2 by 4 by 8 box with a corner
at the origin, identity scale, zero location: the concrete scenario of the
spec. -/
def obj248 : Obj := ⟨⟨1, 1, 1⟩, ⟨0, 0, 0⟩, boxCorners 0 2 0 4 0 8, true⟩

/-- The same 2 by 4 by 8 reference object, moved to location (5, 0, 0). -/
def shiftedObj248 : Obj := ⟨⟨1, 1, 1⟩, ⟨5, 0, 0⟩, boxCorners 0 2 0 4 0 8, true⟩

/-- Reference object with a thin box along x, at the origin. -/
def splitA : Obj := ⟨⟨1, 1, 1⟩, ⟨0, 0, 0⟩, boxCorners 0 (1 / 4) 0 10 0 10, true⟩

/-- Reference object with the same thin box, shifted along x so that the pair
spans a half unit in x. -/
def splitB : Obj := ⟨⟨1, 1, 1⟩, ⟨1 / 4, 0, 0⟩, boxCorners 0 (1 / 4) 0 10 0 10, true⟩

/-- Reference object with a unit-ish box but a nonzero location. -/
def offsetObj : Obj := ⟨⟨1, 1, 1⟩, ⟨1, 0, 0⟩, boxCorners 0 2 0 2 0 2, true⟩

/-- Reference object whose corners are all coincident: a degenerate box. -/
def degObj : Obj := ⟨⟨1, 1, 1⟩, ⟨3, 3, 3⟩, boxCorners 0 0 0 0 0 0, true⟩

/-- A subject-group (cell) object. -/
def cellA : Obj := ⟨⟨1, 1, 1⟩, ⟨3, 4, 5⟩, boxCorners 0 1 0 1 0 1, false⟩

/-- Another subject-group (cell) object with a different transform. -/
def cellB : Obj := ⟨⟨2, 2, 2⟩, ⟨7, 8, 9⟩, boxCorners 0 1 0 1 0 1, false⟩

/-- C3: for the single reference object whose local corners form a 2 by 4
by 8 box at the world origin with identity prior scale, the block yields
scale factor one half, a recomputed reference bounding box of size
(1, 2, 4), and a recomputed box centered at the origin. -/
theorem normalize_concrete_two_four_eight :
    (normalize [obj248]).scaleFactor = 1 / 2 ∧
    ecsSizeX (refGroup (normalize [obj248]).objects) = 1 ∧
    ecsSizeY (refGroup (normalize [obj248]).objects) = 2 ∧
    ecsSizeZ (refGroup (normalize [obj248]).objects) = 4 ∧
    bboxCenterX (refGroup (normalize [obj248]).objects) = 0 ∧
    bboxCenterY (refGroup (normalize [obj248]).objects) = 0 ∧
    bboxCenterZ (refGroup (normalize [obj248]).objects) = 0 := by
  norm_num [normalize, refGroup, ecsCenterX, ecsCenterY, ecsCenterZ, scalingFactor,
    minDimension, ecsSizeX, ecsSizeY, ecsSizeZ, ecsMinX, ecsMaxX, ecsMinY, ecsMaxY,
    ecsMinZ, ecsMaxZ, bboxCenterX, bboxCenterY, bboxCenterZ, xsOf, ysOf, zsOf,
    worldCorners, worldOf, minOf, maxOf, qmin, qmax, boxCorners, obj248,
    applyTransform]

/-- C5: when the reference group is empty the block does not run: the result
is the identity scale factor, the zero translation, and the object list
unchanged. -/
theorem normalize_empty_noop (all : List Obj) (h : refGroup all = []) :
    normalize all = ⟨1, Vec3.mk 0 0 0, all⟩ := by
  rw [normalize, if_pos h]

theorem normalize_empty_noop_witness :
    refGroup [cellA] = [] ∧ normalize [cellA] = ⟨1, Vec3.mk 0 0 0, [cellA]⟩ :=
  ⟨by simp [refGroup, cellA], normalize_empty_noop [cellA] (by simp [refGroup, cellA])⟩

/-- C8: the block only rewrites scale and location: the local bounding
corners of every object, the reference membership of every object, and the
length and order of the object list are unchanged. -/
theorem normalize_preserves_membership_corners (all : List Obj) :
    ((normalize all).objects).map (fun o => (o.bound_box, o.ref)) =
      all.map (fun o => (o.bound_box, o.ref)) := by
  by_cases hg : refGroup all = []
  · rw [normalize_objects_of_empty all hg]
  · rw [normalize_objects_of_ne all hg, List.map_map]
    have hfun : ((fun o : Obj => (o.bound_box, o.ref)) ∘
        applyTransform (scalingFactor (refGroup all))
          (Vec3.mk (ecsCenterX (refGroup all)) (ecsCenterY (refGroup all))
            (ecsCenterZ (refGroup all)))) =
        fun o : Obj => (o.bound_box, o.ref) := funext fun o => rfl
    rw [hfun]

/-- C4: whenever the computed minimum bounding dimension is not positive,
including the degenerate all-corners-coincident case, the scale factor is
exactly 1, the reciprocal is never taken on zero or a negative number, and
every resulting scale is the unchanged input scale; in this exact rational
model every written transform component is a well-defined finite value. -/
theorem normalize_degenerate_identity_scale (all : List Obj)
    (h : minDimension (refGroup all) ≤ 0) :
    (normalize all).scaleFactor = 1 ∧
    ((normalize all).objects).map (fun o => o.scale) = all.map (fun o => o.scale) := by
  by_cases hg : refGroup all = []
  · rw [normalize, if_pos hg]
    exact ⟨rfl, rfl⟩
  · have hk : scalingFactor (refGroup all) = 1 := by
      rw [scalingFactor, if_neg (not_lt.mpr h)]
    refine ⟨by rw [normalize_scaleFactor_of_ne all hg, hk], ?_⟩
    rw [normalize_objects_of_ne all hg, List.map_map]
    have hfun : ((fun o : Obj => o.scale) ∘
        applyTransform (scalingFactor (refGroup all))
          (Vec3.mk (ecsCenterX (refGroup all)) (ecsCenterY (refGroup all))
            (ecsCenterZ (refGroup all)))) = fun o : Obj => o.scale := by
      funext o
      simp [applyTransform, hk]
    rw [hfun]

theorem normalize_degenerate_identity_scale_witness :
    minDimension (refGroup [degObj]) ≤ 0 ∧
    (normalize [degObj]).scaleFactor = 1 ∧
    ((normalize [degObj]).objects).map (fun o => o.scale) =
      [degObj].map (fun o => o.scale) := by
  have hd : minDimension (refGroup [degObj]) ≤ 0 := by
    norm_num [refGroup, minDimension, ecsSizeX, ecsSizeY, ecsSizeZ, ecsMinX,
      ecsMaxX, ecsMinY, ecsMaxY, ecsMinZ, ecsMaxZ, xsOf, ysOf, zsOf, worldCorners,
      worldOf, minOf, maxOf, qmin, qmax, boxCorners, degObj]
  exact ⟨hd, normalize_degenerate_identity_scale [degObj] hd⟩

/-- C6: the scale factor and center offset depend only on the reference
group, so they are unchanged under any change to subject-group objects, and
every object of the full set, subject-group objects included, receives
exactly the same update: scale multiplied by the scale factor and location
reduced by the center offset. -/
theorem normalize_subject_same_transform (all all2 : List Obj)
    (h : refGroup all = refGroup all2) (hg : ¬ refGroup all = []) :
    (normalize all).scaleFactor = (normalize all2).scaleFactor ∧
    (normalize all).centerOffset = (normalize all2).centerOffset ∧
    (normalize all).objects =
      all.map (applyTransform (normalize all).scaleFactor
        (normalize all).centerOffset) := by
  have hg2 : ¬ refGroup all2 = [] := by rw [← h]; exact hg
  refine ⟨?_, ?_, ?_⟩
  · rw [normalize_scaleFactor_of_ne all hg, normalize_scaleFactor_of_ne all2 hg2, h]
  · rw [normalize_centerOffset_of_ne all hg, normalize_centerOffset_of_ne all2 hg2, h]
  · rw [normalize_objects_of_ne all hg, normalize_scaleFactor_of_ne all hg,
      normalize_centerOffset_of_ne all hg]

theorem normalize_subject_same_transform_witness :
    refGroup [obj248, cellA] = refGroup [obj248, cellB] ∧
    ¬ refGroup [obj248, cellA] = [] ∧
    (normalize [obj248, cellA]).scaleFactor = (normalize [obj248, cellB]).scaleFactor ∧
    (normalize [obj248, cellA]).centerOffset = (normalize [obj248, cellB]).centerOffset ∧
    (normalize [obj248, cellA]).objects =
      [obj248, cellA].map (applyTransform (normalize [obj248, cellA]).scaleFactor
        (normalize [obj248, cellA]).centerOffset) := by
  have h1 : refGroup [obj248, cellA] = refGroup [obj248, cellB] := by
    simp [refGroup, obj248, cellA, cellB]
  have h2 : ¬ refGroup [obj248, cellA] = [] := by
    simp [refGroup, obj248, cellA]
  exact ⟨h1, h2, normalize_subject_same_transform [obj248, cellA] [obj248, cellB] h1 h2⟩

/-- C9: the scale factor is strictly positive on every input, and an object
whose scale component is strictly positive before the block keeps a strictly
positive scale component after it. -/
theorem normalize_scale_positive (all : List Obj) (i : ℕ) :
    0 < (normalize all).scaleFactor ∧
    (0 < (all.getD i defaultObj).scale.x →
      0 < (((normalize all).objects).getD i defaultObj).scale.x) ∧
    (0 < (all.getD i defaultObj).scale.y →
      0 < (((normalize all).objects).getD i defaultObj).scale.y) ∧
    (0 < (all.getD i defaultObj).scale.z →
      0 < (((normalize all).objects).getD i defaultObj).scale.z) := by
  by_cases hg : refGroup all = []
  · rw [normalize_scaleFactor_of_empty all hg, normalize_objects_of_empty all hg]
    exact ⟨one_pos, fun h => h, fun h => h, fun h => h⟩
  · rw [normalize_scaleFactor_of_ne all hg, normalize_objects_of_ne all hg]
    refine ⟨scalingFactor_pos _, ?_, ?_, ?_⟩
    · intro h
      refine getD_map_pres _ defaultObj (fun o => 0 < o.scale.x) ?_ all i h
      intro o ho
      exact mul_pos ho (scalingFactor_pos _)
    · intro h
      refine getD_map_pres _ defaultObj (fun o => 0 < o.scale.y) ?_ all i h
      intro o ho
      exact mul_pos ho (scalingFactor_pos _)
    · intro h
      refine getD_map_pres _ defaultObj (fun o => 0 < o.scale.z) ?_ all i h
      intro o ho
      exact mul_pos ho (scalingFactor_pos _)

theorem normalize_scale_positive_witness :
    0 < (normalize [obj248]).scaleFactor ∧
    0 < (((normalize [obj248]).objects).getD 0 defaultObj).scale.x :=
  ⟨(normalize_scale_positive [obj248] 0).1,
   (normalize_scale_positive [obj248] 0).2.1 (by norm_num [obj248])⟩

/-- C10: the centering step subtracts one fixed offset from every location,
so the componentwise difference between the locations of any two objects of
the full set is the same before and after the block. -/
theorem normalize_location_differences (all : List Obj) (i j : ℕ)
    (hi : i < all.length) (hj : j < all.length) :
    (((normalize all).objects).getD i defaultObj).location.x -
        (((normalize all).objects).getD j defaultObj).location.x =
      (all.getD i defaultObj).location.x - (all.getD j defaultObj).location.x ∧
    (((normalize all).objects).getD i defaultObj).location.y -
        (((normalize all).objects).getD j defaultObj).location.y =
      (all.getD i defaultObj).location.y - (all.getD j defaultObj).location.y ∧
    (((normalize all).objects).getD i defaultObj).location.z -
        (((normalize all).objects).getD j defaultObj).location.z =
      (all.getD i defaultObj).location.z - (all.getD j defaultObj).location.z := by
  by_cases hg : refGroup all = []
  · rw [normalize_objects_of_empty all hg]
    exact ⟨rfl, rfl, rfl⟩
  · rw [normalize_objects_of_ne all hg, getD_map_lt _ _ all i hi, getD_map_lt _ _ all j hj]
    refine ⟨?_, ?_, ?_⟩ <;> simp [applyTransform]

theorem normalize_location_differences_witness :
    0 < ([obj248, cellA] : List Obj).length ∧
    1 < ([obj248, cellA] : List Obj).length ∧
    (((normalize [obj248, cellA]).objects).getD 0 defaultObj).location.x -
        (((normalize [obj248, cellA]).objects).getD 1 defaultObj).location.x =
      (([obj248, cellA] : List Obj).getD 0 defaultObj).location.x -
        (([obj248, cellA] : List Obj).getD 1 defaultObj).location.x :=
  ⟨by simp, by simp,
   (normalize_location_differences [obj248, cellA] 0 1 (by simp) (by simp)).1⟩

/-- C1 (amended): for a reference group with strictly positive extent on all
three axes whose members all share one location vector (in the scripts every
imported object has location zero after transform_apply, so this holds
there), the recomputed world bounding box of the reference group after the
block has minimum dimension exactly 1.  Without the shared-location
hypothesis the claim is false, because scaling obj.scale rescales each
object about its own origin while locations are left in place. -/
theorem normalize_min_dimension_one (all : List Obj) (t : Vec3)
    (hloc : ∀ o ∈ refGroup all, o.location = t)
    (hx : 0 < ecsSizeX (refGroup all)) (hy : 0 < ecsSizeY (refGroup all))
    (hz : 0 < ecsSizeZ (refGroup all)) :
    minDimension (refGroup (normalize all).objects) = 1 := by
  have hc : worldCorners (refGroup all) ≠ [] := worldCorners_ne_of_size_pos _ hx
  have hg : ¬ refGroup all = [] := refGroup_ne_of_corners_ne all hc
  have hm : 0 < minDimension (refGroup all) := by
    rw [minDimension, qmin_eq_min, qmin_eq_min]
    exact lt_min hx (lt_min hy hz)
  have hk : 0 ≤ scalingFactor (refGroup all) := scalingFactor_nonneg _
  have hkval : scalingFactor (refGroup all) = 1 / minDimension (refGroup all) := by
    rw [scalingFactor, if_pos hm]
  have hnex := xsOf_ne_of_corners_ne _ hc
  have hney := ysOf_ne_of_corners_ne _ hc
  have hnez := zsOf_ne_of_corners_ne _ hc
  have hxs := xsOf_map_applyTransform (scalingFactor (refGroup all))
    (Vec3.mk (ecsCenterX (refGroup all)) (ecsCenterY (refGroup all))
      (ecsCenterZ (refGroup all))) t (refGroup all) hloc
  have hys := ysOf_map_applyTransform (scalingFactor (refGroup all))
    (Vec3.mk (ecsCenterX (refGroup all)) (ecsCenterY (refGroup all))
      (ecsCenterZ (refGroup all))) t (refGroup all) hloc
  have hzs := zsOf_map_applyTransform (scalingFactor (refGroup all))
    (Vec3.mk (ecsCenterX (refGroup all)) (ecsCenterY (refGroup all))
      (ecsCenterZ (refGroup all))) t (refGroup all) hloc
  rw [normalize_objects_of_ne all hg, refGroup_map_applyTransform]
  have hsx : ecsSizeX ((refGroup all).map (applyTransform (scalingFactor (refGroup all))
      (Vec3.mk (ecsCenterX (refGroup all)) (ecsCenterY (refGroup all))
        (ecsCenterZ (refGroup all))))) =
      scalingFactor (refGroup all) * ecsSizeX (refGroup all) := by
    simp only [ecsSizeX, ecsMaxX, ecsMinX]
    rw [hxs, maxOf_map_affine _ _ hk _ hnex, minOf_map_affine _ _ hk _ hnex]
    ring
  have hsy : ecsSizeY ((refGroup all).map (applyTransform (scalingFactor (refGroup all))
      (Vec3.mk (ecsCenterX (refGroup all)) (ecsCenterY (refGroup all))
        (ecsCenterZ (refGroup all))))) =
      scalingFactor (refGroup all) * ecsSizeY (refGroup all) := by
    simp only [ecsSizeY, ecsMaxY, ecsMinY]
    rw [hys, maxOf_map_affine _ _ hk _ hney, minOf_map_affine _ _ hk _ hney]
    ring
  have hsz : ecsSizeZ ((refGroup all).map (applyTransform (scalingFactor (refGroup all))
      (Vec3.mk (ecsCenterX (refGroup all)) (ecsCenterY (refGroup all))
        (ecsCenterZ (refGroup all))))) =
      scalingFactor (refGroup all) * ecsSizeZ (refGroup all) := by
    simp only [ecsSizeZ, ecsMaxZ, ecsMinZ]
    rw [hzs, maxOf_map_affine _ _ hk _ hnez, minOf_map_affine _ _ hk _ hnez]
    ring
  rw [minDimension, hsx, hsy, hsz, qmin_mul_left _ _ _ hk, qmin_mul_left _ _ _ hk]
  show scalingFactor (refGroup all) * minDimension (refGroup all) = 1
  rw [hkval, one_div_mul_cancel hm.ne']

theorem normalize_min_dimension_one_witness :
    (∀ o ∈ refGroup [shiftedObj248], o.location = Vec3.mk 5 0 0) ∧
    0 < ecsSizeX (refGroup [shiftedObj248]) ∧
    0 < ecsSizeY (refGroup [shiftedObj248]) ∧
    0 < ecsSizeZ (refGroup [shiftedObj248]) ∧
    minDimension (refGroup (normalize [shiftedObj248]).objects) = 1 := by
  have hr : refGroup [shiftedObj248] = [shiftedObj248] := rfl
  have hloc : ∀ o ∈ refGroup [shiftedObj248], o.location = Vec3.mk 5 0 0 := by
    intro o ho
    rw [hr] at ho
    simp only [List.mem_singleton] at ho
    subst ho
    rfl
  have hx : 0 < ecsSizeX (refGroup [shiftedObj248]) := by
    norm_num [refGroup, ecsSizeX, ecsMinX, ecsMaxX, xsOf, worldCorners, worldOf,
      minOf, maxOf, qmin, qmax, boxCorners, shiftedObj248]
  have hy : 0 < ecsSizeY (refGroup [shiftedObj248]) := by
    norm_num [refGroup, ecsSizeY, ecsMinY, ecsMaxY, ysOf, worldCorners, worldOf,
      minOf, maxOf, qmin, qmax, boxCorners, shiftedObj248]
  have hz : 0 < ecsSizeZ (refGroup [shiftedObj248]) := by
    norm_num [refGroup, ecsSizeZ, ecsMinZ, ecsMaxZ, zsOf, worldCorners, worldOf,
      minOf, maxOf, qmin, qmax, boxCorners, shiftedObj248]
  exact ⟨hloc, hx, hy, hz,
    normalize_min_dimension_one [shiftedObj248] (Vec3.mk 5 0 0) hloc hx hy hz⟩

/-- C1 as stated is false: two reference objects with distinct locations and
positive extent on every axis for which the recomputed minimum dimension
after the block is 3/4, not 1. -/
theorem normalize_min_dimension_one_cex :
    0 < ecsSizeX (refGroup [splitA, splitB]) ∧
    0 < ecsSizeY (refGroup [splitA, splitB]) ∧
    0 < ecsSizeZ (refGroup [splitA, splitB]) ∧
    minDimension (refGroup (normalize [splitA, splitB]).objects) ≠ 1 := by
  norm_num [normalize, refGroup, ecsCenterX, ecsCenterY, ecsCenterZ, scalingFactor,
    minDimension, ecsSizeX, ecsSizeY, ecsSizeZ, ecsMinX, ecsMaxX, ecsMinY, ecsMaxY,
    ecsMinZ, ecsMaxZ, xsOf, ysOf, zsOf, worldCorners, worldOf, minOf, maxOf, qmin,
    qmax, boxCorners, splitA, splitB, applyTransform]

/-- C2 (amended): for a nonempty reference group all of whose members sit at
location zero (true in the scripts after transform_apply at import), the
recomputed world bounding-box center of the reference group after the block
is the zero vector.  With a nonzero location the claim is false: the code
subtracts the pre-scale center times the scale factor, which recenters the
box only when locations are zero, because obj.location is not multiplied by
the scale factor in the transform convention of the host. -/
theorem normalize_center_zero (all : List Obj)
    (hc : worldCorners (refGroup all) ≠ [])
    (hloc : ∀ o ∈ refGroup all, o.location = Vec3.mk 0 0 0) :
    bboxCenterX (refGroup (normalize all).objects) = 0 ∧
    bboxCenterY (refGroup (normalize all).objects) = 0 ∧
    bboxCenterZ (refGroup (normalize all).objects) = 0 := by
  have hg : ¬ refGroup all = [] := refGroup_ne_of_corners_ne all hc
  have hk : 0 ≤ scalingFactor (refGroup all) := scalingFactor_nonneg _
  have hnex := xsOf_ne_of_corners_ne _ hc
  have hney := ysOf_ne_of_corners_ne _ hc
  have hnez := zsOf_ne_of_corners_ne _ hc
  have hxs := xsOf_map_applyTransform (scalingFactor (refGroup all))
    (Vec3.mk (ecsCenterX (refGroup all)) (ecsCenterY (refGroup all))
      (ecsCenterZ (refGroup all))) (Vec3.mk 0 0 0) (refGroup all) hloc
  have hys := ysOf_map_applyTransform (scalingFactor (refGroup all))
    (Vec3.mk (ecsCenterX (refGroup all)) (ecsCenterY (refGroup all))
      (ecsCenterZ (refGroup all))) (Vec3.mk 0 0 0) (refGroup all) hloc
  have hzs := zsOf_map_applyTransform (scalingFactor (refGroup all))
    (Vec3.mk (ecsCenterX (refGroup all)) (ecsCenterY (refGroup all))
      (ecsCenterZ (refGroup all))) (Vec3.mk 0 0 0) (refGroup all) hloc
  rw [normalize_objects_of_ne all hg, refGroup_map_applyTransform]
  refine ⟨?_, ?_, ?_⟩
  · simp only [bboxCenterX, ecsMinX, ecsMaxX]
    rw [hxs, minOf_map_affine _ _ hk _ hnex, maxOf_map_affine _ _ hk _ hnex]
    simp only [ecsCenterX, ecsMinX, ecsMaxX]
    ring
  · simp only [bboxCenterY, ecsMinY, ecsMaxY]
    rw [hys, minOf_map_affine _ _ hk _ hney, maxOf_map_affine _ _ hk _ hney]
    simp only [ecsCenterY, ecsMinY, ecsMaxY]
    ring
  · simp only [bboxCenterZ, ecsMinZ, ecsMaxZ]
    rw [hzs, minOf_map_affine _ _ hk _ hnez, maxOf_map_affine _ _ hk _ hnez]
    simp only [ecsCenterZ, ecsMinZ, ecsMaxZ]
    ring

theorem normalize_center_zero_witness :
    worldCorners (refGroup [obj248]) ≠ [] ∧
    (∀ o ∈ refGroup [obj248], o.location = Vec3.mk 0 0 0) ∧
    bboxCenterX (refGroup (normalize [obj248]).objects) = 0 ∧
    bboxCenterY (refGroup (normalize [obj248]).objects) = 0 ∧
    bboxCenterZ (refGroup (normalize [obj248]).objects) = 0 := by
  have hr : refGroup [obj248] = [obj248] := rfl
  have hc : worldCorners (refGroup [obj248]) ≠ [] := by
    rw [hr]
    simp [worldCorners, obj248, boxCorners]
  have hloc : ∀ o ∈ refGroup [obj248], o.location = Vec3.mk 0 0 0 := by
    intro o ho
    rw [hr] at ho
    simp only [List.mem_singleton] at ho
    subst ho
    rfl
  have h := normalize_center_zero [obj248] hc hloc
  exact ⟨hc, hloc, h.1, h.2.1, h.2.2⟩

/-- C2 as stated is false: a single reference object at location (1, 0, 0)
for which the recomputed bounding-box center after the block is (1/2, 0, 0),
not the zero vector. -/
theorem normalize_center_zero_cex :
    ¬ refGroup [offsetObj] = [] ∧
    bboxCenterX (refGroup (normalize [offsetObj]).objects) ≠ 0 := by
  norm_num [normalize, refGroup, ecsCenterX, ecsCenterY, ecsCenterZ, scalingFactor,
    minDimension, ecsSizeX, ecsSizeY, ecsSizeZ, ecsMinX, ecsMaxX, ecsMinY, ecsMaxY,
    ecsMinZ, ecsMaxZ, bboxCenterX, xsOf, ysOf, zsOf, worldCorners, worldOf, minOf,
    maxOf, qmin, qmax, boxCorners, offsetObj, applyTransform]

/-- C7 as stated is false: it asserts non-idempotence for every non-empty
reference group with positive extents, but the concrete 2 by 4 by 8 box at
the origin is sent by the block to an exact fixed point, so the second call
changes nothing there. -/
theorem normalize_twice_equals_once_at_box :
    ¬ refGroup [obj248] = [] ∧
    0 < ecsSizeX (refGroup [obj248]) ∧
    0 < ecsSizeY (refGroup [obj248]) ∧
    0 < ecsSizeZ (refGroup [obj248]) ∧
    (normalize (normalize [obj248]).objects).objects = (normalize [obj248]).objects := by
  norm_num [normalize, refGroup, ecsCenterX, ecsCenterY, ecsCenterZ, scalingFactor,
    minDimension, ecsSizeX, ecsSizeY, ecsSizeZ, ecsMinX, ecsMaxX, ecsMinY, ecsMaxY,
    ecsMinZ, ecsMaxZ, xsOf, ysOf, zsOf, worldCorners, worldOf, minOf, maxOf, qmin,
    qmax, boxCorners, obj248, applyTransform]

/-- C7 (amended): calling the block twice does not in general equal calling
it once; there is a non-empty reference group with positive extent on all
axes, namely two objects with distinct locations, on which the second call
rescales again from the already-normalized geometry and changes the
transforms. -/
theorem normalize_not_idempotent_exists :
    ∃ all : List Obj, ¬ refGroup all = [] ∧
      0 < ecsSizeX (refGroup all) ∧
      0 < ecsSizeY (refGroup all) ∧
      0 < ecsSizeZ (refGroup all) ∧
      (normalize (normalize all).objects).objects ≠ (normalize all).objects := by
  refine ⟨[splitA, splitB], ?_⟩
  have hg : ¬ refGroup [splitA, splitB] = [] := by simp [refGroup, splitA, splitB]
  have e1 : (normalize [splitA, splitB]).objects =
      [⟨⟨2, 2, 2⟩, ⟨-(1 / 2), -10, -10⟩, boxCorners 0 (1 / 4) 0 10 0 10, true⟩,
       ⟨⟨2, 2, 2⟩, ⟨-(1 / 4), -10, -10⟩, boxCorners 0 (1 / 4) 0 10 0 10, true⟩] := by
    rw [normalize_objects_of_ne _ hg]
    norm_num [refGroup, ecsCenterX, ecsCenterY, ecsCenterZ, scalingFactor,
      minDimension, ecsSizeX, ecsSizeY, ecsSizeZ, ecsMinX, ecsMaxX, ecsMinY,
      ecsMaxY, ecsMinZ, ecsMaxZ, xsOf, ysOf, zsOf, worldCorners, worldOf, minOf,
      maxOf, qmin, qmax, boxCorners, splitA, splitB, applyTransform]
  refine ⟨hg, ?_, ?_, ?_, ?_⟩
  · norm_num [refGroup, ecsSizeX, ecsMinX, ecsMaxX, xsOf, worldCorners, worldOf,
      minOf, maxOf, qmin, qmax, boxCorners, splitA, splitB]
  · norm_num [refGroup, ecsSizeY, ecsMinY, ecsMaxY, ysOf, worldCorners, worldOf,
      minOf, maxOf, qmin, qmax, boxCorners, splitA, splitB]
  · norm_num [refGroup, ecsSizeZ, ecsMinZ, ecsMaxZ, zsOf, worldCorners, worldOf,
      minOf, maxOf, qmin, qmax, boxCorners, splitA, splitB]
  · rw [e1]
    have hg2 : ¬ refGroup
        [(⟨⟨2, 2, 2⟩, ⟨-(1 / 2), -10, -10⟩, boxCorners 0 (1 / 4) 0 10 0 10, true⟩ : Obj),
         ⟨⟨2, 2, 2⟩, ⟨-(1 / 4), -10, -10⟩, boxCorners 0 (1 / 4) 0 10 0 10, true⟩] = [] := by
      simp [refGroup]
    rw [normalize_objects_of_ne _ hg2]
    norm_num [refGroup, ecsCenterX, ecsCenterY, ecsCenterZ, scalingFactor,
      minDimension, ecsSizeX, ecsSizeY, ecsSizeZ, ecsMinX, ecsMaxX, ecsMinY,
      ecsMaxY, ecsMinZ, ecsMaxZ, xsOf, ysOf, zsOf, worldCorners, worldOf, minOf,
      maxOf, qmin, qmax, boxCorners, applyTransform]

end Cello
